import Mathlib

/-!
Verification development for the Evore autodeploy crank (JavaScript reference
implementation).  The definitions below are a shallow embedding of the crank
scheduling and batching subsystem: the round-dedup tracker, the eligibility
evaluator, the window-gated polling tick, the per-batch submission loop, the
instruction builders of the SDK, and the lookup-table registry classifier.
Public keys and base58 strings are modelled as natural numbers; u64 BigInt
fields are modelled as Nat (all arithmetic in the embedded code is on
non-negative values and never reaches 2^64 in the properties considered,
except the explicit u64-max sentinel, carried as a literal); the one signed
quantity, the slots-remaining difference, is modelled as Int exactly as the
BigInt subtraction in the source.
-/

namespace Evore

/-- Amount to deploy per square in lamports (strategy constant). -/
def DEPLOY_AMOUNT_LAMPORTS : Nat := 10000

/-- The auth id the crank deploys for (strategy constant). -/
def AUTH_ID : Nat := 0

/-- Squares mask: which squares to deploy to (0x1FFFFFF = all 25 squares). -/
def SQUARES_MASK : Nat := 0x1FFFFFF

/-- How many slots before round end to trigger deployment (window ceiling). -/
def DEPLOY_SLOTS_BEFORE_END : Nat := 150

/-- Minimum slots remaining to attempt deployment (window floor). -/
def MIN_SLOTS_TO_DEPLOY : Nat := 10

/-- Maximum deployers batched in one transaction without LUT. -/
def MAX_BATCH_SIZE_NO_LUT : Nat := 2

/-- Maximum deployers batched in one transaction with LUT. -/
def MAX_BATCH_SIZE_WITH_LUT : Nat := 7

/-- Rent reserve for the managed-miner-auth PDA. -/
def AUTH_PDA_RENT : Nat := 890880

/-- Estimated rent for creating the ORE miner sub-account. -/
def MINER_RENT_ESTIMATE : Nat := 2500000

/-- Base protocol deploy fee in lamports (sdk constants.js). -/
def DEPLOY_FEE : Nat := 1000

/-- Checkpoint fee required by ORE v3 in lamports (sdk constants.js). -/
def ORE_CHECKPOINT_FEE : Nat := 10000

/-- The u64 sentinel endSlot value meaning that no round is active. -/
def U64_MAX : Nat := 18446744073709551615

/-- Fuel-bounded body of the countBits while loop of the source; the fuel is
an upper bound on the number of halvings and the loop stops as soon as the
argument reaches zero, exactly as the source loop does. -/
def countBitsAux : Nat → Nat → Nat
  | 0, _ => 0
  | fuel + 1, n => if n = 0 then 0 else n % 2 + countBitsAux fuel (n / 2)

/-- Popcount as computed by the countBits helper of the crank:
while (n) { count += n & 1; n >>>= 1 }. -/
def countBits (n : Nat) : Nat := countBitsAux n n

/-- One decoded Deployer account as collected by Crank.findDeployers. -/
structure Deployer where
  deployerAddress : Nat
  managerAddress : Nat
  bpsFee : Nat
  flatFee : Nat
deriving DecidableEq, Repr

/-- The fields of a decoded ORE miner account that getMinerStatus returns. -/
structure MinerStatus where
  checkpointId : Nat
  roundId : Nat
  rewardsSol : Nat
deriving DecidableEq, Repr

/-- Decoded board state together with the current slot, as getBoard returns. -/
structure Board where
  roundId : Nat
  startSlot : Nat
  endSlot : Nat
  epochId : Nat
  currentSlot : Nat
deriving DecidableEq, Repr

/-- The chain reads performed for one deployer during a tick: the ore miner
account read by getMinerStatus (none when the account is missing or fails to
decode), the existence probe of the same ore miner account inside
calculateRequiredBalance, and the managed-miner-auth lamport balance. -/
structure DeployerEnv where
  minerStatus : Option MinerStatus
  minerAcctExists : Bool
  balance : Nat
deriving DecidableEq, Repr

/-- One entry of the toDeploy list built by runStrategy. -/
structure DeployTask where
  deployer : Deployer
  authId : Nat
  amount : Nat
  squaresMask : Nat
  checkpointRound : Option Nat
deriving DecidableEq, Repr

/-- The process-local mutable state of the polling loop: the last observed
round identifier (null before the first round is seen) and the set of
deployKey strings, modelled as (deployerAddress, roundId) pairs. -/
structure CrankState where
  lastRoundId : Option Nat
  deployedRounds : List (Nat × Nat)
deriving DecidableEq, Repr

/-- Crank.needsCheckpoint: given the miner status read (none when the miner
account is unreadable), return the round that still needs a checkpoint. -/
def needsCheckpoint (status : Option MinerStatus) : Option Nat :=
  match status with
  | none => none
  | some s => if s.checkpointId < s.roundId then some s.roundId else none

/-- Crank.calculateRequiredBalance, with the two chain probes replaced by
their results: minerExists is the existence probe of the ore miner account
(on a read error the source also treats the miner as missing). -/
def calculateRequiredBalance (bpsFee flatFee amountPerSquare squaresMask : Nat)
    (minerExists : Bool) : Nat :=
  let numSquares := countBits squaresMask
  let totalDeployed := amountPerSquare * numSquares
  let bpsFeeAmount := totalDeployed * bpsFee / 10000
  let deployerFee := bpsFeeAmount + flatFee
  let protocolFee := DEPLOY_FEE
  let minerRent := if minerExists then 0 else MINER_RENT_ESTIMATE
  AUTH_PDA_RENT + ORE_CHECKPOINT_FEE + totalDeployed + minerRent + deployerFee + protocolFee

/-- Instructions appearing in the transactions the crank builds, identified
by the SDK builder that produced them and the arguments it received. -/
inductive Instruction where
  | computeUnitLimit (units : Nat)
  | computeUnitPrice (microLamports : Nat)
  | mmFullAutodeploy (signer manager authId roundId checkpointRoundId amount squaresMask : Nat)
  | mmAutodeploy (signer manager authId roundId amount squaresMask : Nat)
deriving DecidableEq, Repr

/-- First data byte (the Evore instruction discriminator) of an instruction:
EvoreInstruction.MMFullAutodeploy = 12, EvoreInstruction.MMAutodeploy = 7 in
the SDK constants; compute-budget instructions target another program. -/
def instructionDisc : Instruction → Option Nat
  | .mmFullAutodeploy _ _ _ _ _ _ _ => some 12
  | .mmAutodeploy _ _ _ _ _ _ => some 7
  | _ => none

/-- The SDK mmAutodeployInstruction builder (plain deploy, no checkpoint). -/
def mmAutodeployInstruction (signer manager authId roundId amount squaresMask : Nat) :
    Instruction :=
  .mmAutodeploy signer manager authId roundId amount squaresMask

/-- The SDK mmFullAutodeployInstruction builder (combined checkpoint +
recycle + deploy). -/
def mmFullAutodeployInstruction
    (signer manager authId roundId checkpointRoundId amount squaresMask : Nat) :
    Instruction :=
  .mmFullAutodeploy signer manager authId roundId checkpointRoundId amount squaresMask

/-- The checkpointRound || roundId expression of
Crank.buildFullAutodeployInstructions: JavaScript || falls back to the
current round both when checkpointRound is null and when it is the falsy
BigInt 0n. -/
def foldCheckpointRound (checkpointRound : Option Nat) (roundId : Nat) : Nat :=
  match checkpointRound with
  | some r => if r = 0 then roundId else r
  | none => roundId

/-- Crank.buildFullAutodeployInstructions: a compute-budget prefix followed
by one combined instruction per deploy task. -/
def buildFullAutodeployInstructions (pubkey priorityFee : Nat)
    (deploys : List DeployTask) (roundId : Nat) : List Instruction :=
  let cuLimit := min (deploys.length * 400000) 1400000
  Instruction.computeUnitLimit cuLimit ::
    Instruction.computeUnitPrice priorityFee ::
    deploys.map (fun d =>
      mmFullAutodeployInstruction pubkey d.deployer.managerAddress d.authId roundId
        (foldCheckpointRound d.checkpointRound roundId) d.amount d.squaresMask)

/-- The per-deployer body of the toDeploy collection loop in runStrategy:
skip when the dedup key is already marked, otherwise evaluate eligibility
and build the task (carrying the checkpoint signal) when the held balance
is at least the required balance. -/
def evalDeployer (st : CrankState) (roundId : Nat) (d : Deployer) (env : DeployerEnv) :
    Option DeployTask :=
  if (d.deployerAddress, roundId) ∈ st.deployedRounds then none
  else
    let checkpointRound := needsCheckpoint env.minerStatus
    let required := calculateRequiredBalance d.bpsFee d.flatFee
      DEPLOY_AMOUNT_LAMPORTS SQUARES_MASK env.minerAcctExists
    if env.balance ≥ required then
      some { deployer := d, authId := AUTH_ID, amount := DEPLOY_AMOUNT_LAMPORTS,
             squaresMask := SQUARES_MASK, checkpointRound := checkpointRound }
    else none

/-- The toDeploy list built by one tick over the managed deployers. -/
def collectToDeploy (st : CrankState) (roundId : Nat)
    (envs : List (Deployer × DeployerEnv)) : List DeployTask :=
  envs.filterMap (fun p => evalDeployer st roundId p.1 p.2)

/-- Fuel-bounded chunking loop of runStrategy
(for i = 0; i < toDeploy.length; i += batchSize); the fuel l.length bounds
the iteration count whenever the batch size is positive. -/
def chunkListAux (fuel n : Nat) (l : List DeployTask) : List (List DeployTask) :=
  match fuel with
  | 0 => []
  | fuel + 1 =>
    match l with
    | [] => []
    | _ => l.take n :: chunkListAux fuel n (l.drop n)

/-- Partition the toDeploy list into consecutive chunks of at most n tasks. -/
def chunkList (n : Nat) (l : List DeployTask) : List (List DeployTask) :=
  chunkListAux l.length n l

/-- Mark every task of a successfully submitted batch in the tracker
(state.deployedRounds.add of each deployKey). -/
def markBatch (roundId : Nat) (batch : List DeployTask) (st : CrankState) : CrankState :=
  { st with deployedRounds :=
      batch.map (fun t => (t.deployer.deployerAddress, roundId)) ++ st.deployedRounds }

/-- The per-batch submission loop of runStrategy: each batch is submitted in
turn; on success (submitOk) its tasks are marked, on failure the error is
caught and the loop continues with the next batch and an unchanged tracker. -/
def processBatches (roundId : Nat) (submitOk : List DeployTask → Bool) :
    List (List DeployTask) → CrankState → CrankState
  | [], st => st
  | b :: rest, st =>
    processBatches roundId submitOk rest (if submitOk b then markBatch roundId b st else st)

/-- One polling tick (runStrategy): read board and slot, bail out on the
no-round sentinel, clear the dedup tracker when the observed round id
differs from the stored one, gate on the deploy window, collect eligible
tasks, chunk them by the LUT-dependent batch size and run the submission
loop.  Returns the updated state and the list of submitted batches. -/
def runStrategy (board : Board) (envs : List (Deployer × DeployerEnv)) (hasLuts : Bool)
    (submitOk : List DeployTask → Bool) (st : CrankState) :
    CrankState × List (List DeployTask) :=
  if board.endSlot = U64_MAX then (st, [])
  else
    let slotsRemaining : Int := (board.endSlot : Int) - (board.currentSlot : Int)
    let st1 := if st.lastRoundId = some board.roundId then st
      else { lastRoundId := some board.roundId, deployedRounds := [] }
    if slotsRemaining < (MIN_SLOTS_TO_DEPLOY : Int) then (st1, [])
    else if slotsRemaining > (DEPLOY_SLOTS_BEFORE_END : Int) then (st1, [])
    else
      let toDeploy := collectToDeploy st1 board.roundId envs
      let batchSize := if hasLuts then MAX_BATCH_SIZE_WITH_LUT else MAX_BATCH_SIZE_NO_LUT
      let batches := chunkList batchSize toDeploy
      (processBatches board.roundId submitOk batches st1, batches)

/-- The inputs one tick of the polling loop reads from the outside world. -/
structure TickInput where
  board : Board
  envs : List (Deployer × DeployerEnv)
  hasLuts : Bool
  submitOk : List DeployTask → Bool

/-- Run a sequence of polling ticks, accumulating all submitted batches. -/
def runTicks (st : CrankState) : List TickInput → CrankState × List (List DeployTask)
  | [] => (st, [])
  | ti :: rest =>
    let r1 := runStrategy ti.board ti.envs ti.hasLuts ti.submitOk st
    let r2 := runTicks r1.1 rest
    (r2.1, r1.2 ++ r2.2)

/-- The deployer addresses occurring in a list of submitted batches. -/
def batchAddrs (batches : List (List DeployTask)) : List Nat :=
  batches.flatten.map (fun t => t.deployer.deployerAddress)

/-- One on-chain lookup table as seen after deserialization: its account
address and its stored address list. -/
structure LutTable where
  address : Nat
  addresses : List Nat
deriving DecidableEq, Repr

/-- The classification state of the LutRegistry: the adopted shared LUT, the
cached shared address set (a JS Set, modelled as an insertion-ordered
duplicate-free list) and the miner-auth to LUT map (a JS Map, modelled as an
insertion-ordered association list). -/
structure LutRegistry where
  sharedLut : Option Nat
  sharedLutAccounts : List Nat
  minerLuts : List (Nat × Nat)
deriving DecidableEq, Repr

/-- A freshly constructed registry. -/
def emptyRegistry : LutRegistry := ⟨none, [], []⟩

/-- JS Set.add: append when absent, keep insertion order otherwise. -/
def addSet (s : List Nat) (x : Nat) : List Nat := if x ∈ s then s else s ++ [x]

/-- JS Map.set: update in place when the key exists, append otherwise. -/
def setAssoc (k v : Nat) : List (Nat × Nat) → List (Nat × Nat)
  | [] => [(k, v)]
  | p :: rest => if p.1 = k then (k, v) :: rest else p :: setAssoc k v rest

/-- The hasAllStatic test of loadAllLuts: every static shared account occurs
in the table's address list. -/
def hasAllStatic (staticAccounts : List Nat) (t : LutTable) : Bool :=
  staticAccounts.all (fun a => decide (a ∈ t.addresses))

/-- The classification step of loadAllLuts for one deserialized table: adopt
it as the shared LUT when it contains all static accounts and none is
adopted yet (rebuilding the shared address set), otherwise record it as a
miner LUT keyed by the address at index 2 when it holds exactly 5 addresses,
otherwise ignore it. -/
def processLut (staticAccounts : List Nat) (reg : LutRegistry) (t : LutTable) :
    LutRegistry :=
  if hasAllStatic staticAccounts t = true ∧ reg.sharedLut = none then
    { reg with sharedLut := some t.address,
               sharedLutAccounts := t.addresses.foldl addSet [] }
  else if t.addresses.length = 5 then
    { reg with minerLuts := setAssoc (t.addresses.getD 2 0) t.address reg.minerLuts }
  else reg

/-- LutRegistry.loadAllLuts restricted to its classification effect: fold
the classification step over all deserialized tables owned by the
authority. -/
def loadAllLuts (staticAccounts : List Nat) (reg : LutRegistry)
    (tables : List LutTable) : LutRegistry :=
  tables.foldl (processLut staticAccounts) reg

/-- The state named st1 inside runStrategy: the tracker after the
round-rollover comparison of the tick. -/
def clearedState (st : CrankState) (roundId : Nat) : CrankState :=
  if st.lastRoundId = some roundId then st
  else { lastRoundId := some roundId, deployedRounds := [] }

/-- The batches a tick submits once the window checks have passed. -/
def tickBatches (board : Board) (envs : List (Deployer × DeployerEnv))
    (hasLuts : Bool) (st1 : CrankState) : List (List DeployTask) :=
  chunkList (if hasLuts then MAX_BATCH_SIZE_WITH_LUT else MAX_BATCH_SIZE_NO_LUT)
    (collectToDeploy st1 board.roundId envs)

/-- The association into which loadAllLuts folds the miner-LUT updates of a
table scan: one Map.set per table holding exactly 5 addresses, keyed by the
address at index 2. -/
def lutOps (tables : List LutTable) : List (Nat × Nat) :=
  tables.filterMap (fun t =>
    if t.addresses.length = 5 then some (t.addresses.getD 2 0, t.address) else none)

/-- Replay a sequence of Map.set operations over an association list. -/
def replay (m : List (Nat × Nat)) (ops : List (Nat × Nat)) : List (Nat × Nat) :=
  ops.foldl (fun acc p => setAssoc p.1 p.2 acc) m

/-- The key list of an association list, in insertion order. -/
def keysOf (m : List (Nat × Nat)) : List Nat := m.map Prod.fst

/-- Lookup in an association list. -/
def lookupA (k : Nat) : List (Nat × Nat) → Option Nat
  | [] => none
  | p :: rest => if p.1 = k then some p.2 else lookupA k rest

/-- The key-list effect of one Map.set. -/
def addKey (ks : List Nat) (k : Nat) : List Nat := if k ∈ ks then ks else ks ++ [k]

/-- The value the last Map.set on a key wrote, if any. -/
def lastWrite (k : Nat) (ops : List (Nat × Nat)) : Option Nat :=
  ops.foldl (fun acc p => if p.1 = k then some p.2 else acc) none

/-- Concrete fee terms used by the counterexamples and witnesses. -/
def deployerEx : Deployer := ⟨1, 2, 500, 2000⟩

/-- A concrete read environment: miner account missing, large balance. -/
def envMissingMiner : DeployerEnv := ⟨none, false, 10000000⟩

/-- A concrete read environment: miner account present, large balance. -/
def envWithMiner : DeployerEnv := ⟨some ⟨3, 3, 0⟩, true, 10000000⟩

/-- A concrete deploy task whose checkpoint signal is absent. -/
def taskNoCheckpoint : DeployTask :=
  { deployer := deployerEx, authId := 0, amount := 10000,
    squaresMask := 0x1FFFFFF, checkpointRound := none }

/-- A concrete in-window tick over the one always-eligible deployer, with
every submission accepted. -/
def tickEx : TickInput :=
  ⟨⟨5, 0, 100, 0, 0⟩, [(deployerEx, envWithMiner)], true, fun _ => true⟩

end Evore

namespace Evore

/-- C2 (counterexample): for bps 500, flat 2000, amount 10000, mask 0x1FFFFFF
and an existing miner sub-account, the code computes a required balance of
1166380 — the protocol deploy fee of 1000 lamports on top of the claimed
1165380 — so the claimed value is wrong. -/
theorem C2_required_balance_counterexample :
    calculateRequiredBalance 500 2000 10000 0x1FFFFFF true = 1166380
    ∧ (1166380 : Nat) ≠ 1165380 := by decide

/-- C2 (amended): when the miner sub-account exists the required balance is
R + C + A*k + floor(A*k*B/10000) + F + P with the additional base protocol
deploy fee P = 1000; for the example inputs it is 1166380; and an unmarked
account is added to the deploy list iff its held balance is at least this
value (equality eligible). -/
theorem C2_required_balance_amended (bps flat A mask : Nat) :
    (calculateRequiredBalance bps flat A mask true
      = 890880 + 10000 + A * countBits mask + A * countBits mask * bps / 10000
        + flat + 1000)
    ∧ calculateRequiredBalance 500 2000 10000 0x1FFFFFF true = 1166380
    ∧ (∀ (st : CrankState) (r : Nat) (d : Deployer) (env : DeployerEnv),
        env.minerAcctExists = true → d.bpsFee = bps → d.flatFee = flat →
        (d.deployerAddress, r) ∉ st.deployedRounds →
        ((evalDeployer st r d env).isSome ↔
          env.balance ≥ calculateRequiredBalance bps flat
            DEPLOY_AMOUNT_LAMPORTS SQUARES_MASK true)) := by
  refine ⟨?_, by decide, ?_⟩
  · simp only [calculateRequiredBalance, AUTH_PDA_RENT, ORE_CHECKPOINT_FEE, DEPLOY_FEE,
      MINER_RENT_ESTIMATE, if_true]
    omega
  · intro st r d env hex hbps hflat hmem
    subst hbps; subst hflat
    by_cases hb : env.balance ≥ calculateRequiredBalance d.bpsFee d.flatFee
        DEPLOY_AMOUNT_LAMPORTS SQUARES_MASK true
    · simp [evalDeployer, hmem, hex, hb]
    · simp [evalDeployer, hmem, hex, hb]

/-- C2 witness: the amended formula and the eligibility criterion evaluated
at the concrete example inputs. -/
theorem C2_required_balance_amended_witness :
    (calculateRequiredBalance 500 2000 10000 0x1FFFFFF true
      = 890880 + 10000 + 10000 * countBits 0x1FFFFFF
        + 10000 * countBits 0x1FFFFFF * 500 / 10000 + 2000 + 1000)
    ∧ ((evalDeployer ⟨some 1, []⟩ 1 deployerEx envWithMiner).isSome ↔
        envWithMiner.balance ≥ calculateRequiredBalance 500 2000
          DEPLOY_AMOUNT_LAMPORTS SQUARES_MASK true) :=
  ⟨(C2_required_balance_amended 500 2000 10000 0x1FFFFFF).1,
   (C2_required_balance_amended 500 2000 10000 0x1FFFFFF).2.2
     ⟨some 1, []⟩ 1 deployerEx envWithMiner rfl rfl rfl (by decide)⟩

/-- C6: the evaluator signals a pending checkpoint iff the miner's
checkpointId is strictly below its own recorded roundId, the signalled round
is the miner's recorded roundId, and that signalled round is the checkpoint
round folded into the combined instruction built for the task. -/
theorem C6_checkpoint_folding (s : MinerStatus) :
    ((needsCheckpoint (some s)).isSome ↔ s.checkpointId < s.roundId)
    ∧ (∀ r, needsCheckpoint (some s) = some r → r = s.roundId)
    ∧ (∀ roundId, s.checkpointId < s.roundId →
        foldCheckpointRound (needsCheckpoint (some s)) roundId = s.roundId)
    ∧ (∀ (pk fee roundId : Nat) (deploys : List DeployTask) (t : DeployTask),
        t ∈ deploys → t.checkpointRound = needsCheckpoint (some s) →
        s.checkpointId < s.roundId →
        Instruction.mmFullAutodeploy pk t.deployer.managerAddress t.authId roundId
          s.roundId t.amount t.squaresMask
          ∈ buildFullAutodeployInstructions pk fee deploys roundId) := by
  have hsome : ∀ h : s.checkpointId < s.roundId,
      needsCheckpoint (some s) = some s.roundId := by
    intro h; simp [needsCheckpoint, h]
  refine ⟨?_, ?_, ?_, ?_⟩
  · by_cases h : s.checkpointId < s.roundId <;> simp [needsCheckpoint, h]
  · intro r hr
    by_cases h : s.checkpointId < s.roundId
    · rw [hsome h] at hr
      exact (Option.some_inj.mp hr).symm
    · simp [needsCheckpoint, h] at hr
  · intro roundId h
    rw [hsome h]
    have h0 : s.roundId ≠ 0 := by omega
    simp [foldCheckpointRound, h0]
  · intro pk fee roundId deploys t ht hcr h
    have h0 : s.roundId ≠ 0 := by omega
    have hfold : foldCheckpointRound t.checkpointRound roundId = s.roundId := by
      rw [hcr, hsome h]; simp [foldCheckpointRound, h0]
    simp only [buildFullAutodeployInstructions, mmFullAutodeployInstruction]
    refine List.mem_cons_of_mem _ (List.mem_cons_of_mem _ ?_)
    exact List.mem_map.mpr ⟨t, ht, by rw [hfold]⟩

/-- C6 witness: a miner one round behind signals its own recorded round and
that round lands in the combined instruction. -/
theorem C6_checkpoint_folding_witness :
    (needsCheckpoint (some ⟨3, 4, 0⟩) = some 4 → (4 : Nat) = 4)
    ∧ foldCheckpointRound (needsCheckpoint (some ⟨3, 4, 0⟩)) 7 = 4
    ∧ Instruction.mmFullAutodeploy 9 deployerEx.managerAddress 0 7 4 10000 0x1FFFFFF
        ∈ buildFullAutodeployInstructions 9 100000
            [{ taskNoCheckpoint with checkpointRound := some 4 }] 7 :=
  ⟨(C6_checkpoint_folding ⟨3, 4, 0⟩).2.1 4,
   (C6_checkpoint_folding ⟨3, 4, 0⟩).2.2.1 7 (by decide),
   by
    have h := (C6_checkpoint_folding ⟨3, 4, 0⟩).2.2.2 9 100000 7
      [{ taskNoCheckpoint with checkpointRound := some 4 }]
      { taskNoCheckpoint with checkpointRound := some 4 }
      (by decide) (by decide) (by decide)
    simpa [taskNoCheckpoint, deployerEx] using h⟩

/-- C7 (counterexample): a task with no checkpoint signal still produces the
combined MMFullAutodeploy instruction (discriminator 12), not the plain
MMAutodeploy instruction (discriminator 7) the claim says it gets. -/
theorem C7_instruction_variant_counterexample :
    buildFullAutodeployInstructions 9 100000 [taskNoCheckpoint] 42
      = [Instruction.computeUnitLimit 400000, Instruction.computeUnitPrice 100000,
         Instruction.mmFullAutodeploy 9 2 0 42 42 10000 0x1FFFFFF]
    ∧ instructionDisc (Instruction.mmFullAutodeploy 9 2 0 42 42 10000 0x1FFFFFF) = some 12
    ∧ mmAutodeployInstruction 9 2 0 42 10000 0x1FFFFFF
        = Instruction.mmAutodeploy 9 2 0 42 10000 0x1FFFFFF
    ∧ instructionDisc (Instruction.mmAutodeploy 9 2 0 42 10000 0x1FFFFFF) = some 7
    ∧ (∀ ins ∈ buildFullAutodeployInstructions 9 100000 [taskNoCheckpoint] 42,
        ins ≠ mmAutodeployInstruction 9 2 0 42 10000 0x1FFFFFF) := by decide

/-- C7 (amended): the built instruction list is the two compute-budget
instructions followed by exactly one combined MMFullAutodeploy instruction
per task, in task order; the checkpoint flag selects only the checkpoint
round argument, never a different instruction variant. -/
theorem C7_instruction_variant_amended (pk fee roundId : Nat) (deploys : List DeployTask) :
    ((buildFullAutodeployInstructions pk fee deploys roundId).take 2
        = [Instruction.computeUnitLimit (min (deploys.length * 400000) 1400000),
           Instruction.computeUnitPrice fee])
    ∧ ((buildFullAutodeployInstructions pk fee deploys roundId).drop 2
        = deploys.map (fun t =>
            Instruction.mmFullAutodeploy pk t.deployer.managerAddress t.authId roundId
              (foldCheckpointRound t.checkpointRound roundId) t.amount t.squaresMask))
    ∧ (∀ ins ∈ (buildFullAutodeployInstructions pk fee deploys roundId).drop 2,
        instructionDisc ins = some 12) := by
  refine ⟨rfl, rfl, ?_⟩
  intro ins hins
  have hm : ins ∈ deploys.map (fun t =>
      Instruction.mmFullAutodeploy pk t.deployer.managerAddress t.authId roundId
        (foldCheckpointRound t.checkpointRound roundId) t.amount t.squaresMask) := hins
  obtain ⟨t, _, rfl⟩ := List.mem_map.mp hm
  rfl

/-- C7 witness: the amended shape evaluated on a concrete one-task batch. -/
theorem C7_instruction_variant_amended_witness :
    ((buildFullAutodeployInstructions 9 100000 [taskNoCheckpoint] 42).drop 2
        = [taskNoCheckpoint].map (fun t =>
            Instruction.mmFullAutodeploy 9 t.deployer.managerAddress t.authId 42
              (foldCheckpointRound t.checkpointRound 42) t.amount t.squaresMask))
    ∧ instructionDisc (Instruction.mmFullAutodeploy 9 2 0 42 42 10000 0x1FFFFFF) = some 12 :=
  ⟨(C7_instruction_variant_amended 9 100000 42 [taskNoCheckpoint]).2.1,
   (C7_instruction_variant_amended 9 100000 42 [taskNoCheckpoint]).2.2
     (Instruction.mmFullAutodeploy 9 2 0 42 42 10000 0x1FFFFFF) (by decide)⟩

/-- C8 (counterexample): a pair whose miner account does not exist is NOT
skipped: with the miner missing the estimated creation rent is added to the
requirement, and a sufficiently funded pair is still added to the deploy
list, contradicting the claim that it is treated as not eligible. -/
theorem C8_missing_miner_counterexample :
    envMissingMiner.minerStatus = none
    ∧ envMissingMiner.minerAcctExists = false
    ∧ collectToDeploy ⟨some 1, []⟩ 1 [(deployerEx, envMissingMiner)]
        = [{ deployer := deployerEx, authId := 0, amount := 10000,
             squaresMask := 0x1FFFFFF, checkpointRound := none }] := by decide

/-- C8 (amended): a missing miner record never raises an error: the
checkpoint signal is none and the miner creation rent estimate is added to
the required balance, so the pair is scheduled iff it is unmarked and its
balance covers this larger requirement (and skipped otherwise). -/
theorem C8_missing_miner_amended (st : CrankState) (r : Nat) (d : Deployer)
    (env : DeployerEnv) (hmiss : env.minerStatus = none)
    (hacct : env.minerAcctExists = false) :
    needsCheckpoint env.minerStatus = none
    ∧ ((evalDeployer st r d env).isSome ↔
        ((d.deployerAddress, r) ∉ st.deployedRounds ∧
          env.balance ≥ calculateRequiredBalance d.bpsFee d.flatFee
            DEPLOY_AMOUNT_LAMPORTS SQUARES_MASK false))
    ∧ calculateRequiredBalance d.bpsFee d.flatFee DEPLOY_AMOUNT_LAMPORTS SQUARES_MASK false
        = calculateRequiredBalance d.bpsFee d.flatFee DEPLOY_AMOUNT_LAMPORTS SQUARES_MASK true
          + MINER_RENT_ESTIMATE := by
  refine ⟨by rw [hmiss]; rfl, ?_, ?_⟩
  · by_cases hmem : (d.deployerAddress, r) ∈ st.deployedRounds
    · simp [evalDeployer, hmem]
    · by_cases hb : env.balance ≥ calculateRequiredBalance d.bpsFee d.flatFee
          DEPLOY_AMOUNT_LAMPORTS SQUARES_MASK false
      · simp [evalDeployer, hmem, hacct, hb]
      · simp [evalDeployer, hmem, hacct, hb]
  · simp [calculateRequiredBalance, MINER_RENT_ESTIMATE]
    omega

/-- C8 witness: the amended behavior evaluated on a funded pair with a
missing miner account. -/
theorem C8_missing_miner_amended_witness :
    (evalDeployer ⟨some 1, []⟩ 1 deployerEx envMissingMiner).isSome ↔
      ((1, 1) ∉ ([] : List (Nat × Nat)) ∧
        envMissingMiner.balance ≥ calculateRequiredBalance deployerEx.bpsFee
          deployerEx.flatFee DEPLOY_AMOUNT_LAMPORTS SQUARES_MASK false) :=
  (C8_missing_miner_amended ⟨some 1, []⟩ 1 deployerEx envMissingMiner rfl rfl).2.1

/-- C10: a null checkpoint signal falls back to the current round in the
combined instruction, the falsy BigInt 0 signal takes the same fallback, and
the checkpoint round placed in the instruction can only be 0 when the
current round itself is 0 — a checkpoint of round 0 can never be
requested by the signal. -/
theorem C10_zero_checkpoint_fallback (roundId pk fee : Nat) (t : DeployTask) :
    foldCheckpointRound none roundId = roundId
    ∧ foldCheckpointRound (some 0) roundId = roundId
    ∧ (t.checkpointRound = none →
        buildFullAutodeployInstructions pk fee [t] roundId
          = [Instruction.computeUnitLimit 400000, Instruction.computeUnitPrice fee,
             Instruction.mmFullAutodeploy pk t.deployer.managerAddress t.authId roundId
               roundId t.amount t.squaresMask])
    ∧ (∀ cr, foldCheckpointRound cr roundId = 0 → roundId = 0) := by
  refine ⟨rfl, rfl, ?_, ?_⟩
  · intro h
    simp [buildFullAutodeployInstructions, mmFullAutodeployInstruction, h,
      foldCheckpointRound]
  · intro cr h
    match cr with
    | none => exact h
    | some r =>
      by_cases h0 : r = 0
      · simpa [foldCheckpointRound, h0] using h
      · simp [foldCheckpointRound, h0] at h

/-- C10 witness: the fallback evaluated on a concrete no-signal task. -/
theorem C10_zero_checkpoint_fallback_witness :
    buildFullAutodeployInstructions 9 100000 [taskNoCheckpoint] 42
      = [Instruction.computeUnitLimit 400000, Instruction.computeUnitPrice 100000,
         Instruction.mmFullAutodeploy 9 taskNoCheckpoint.deployer.managerAddress
           taskNoCheckpoint.authId 42 42 taskNoCheckpoint.amount
           taskNoCheckpoint.squaresMask] :=
  (C10_zero_checkpoint_fallback 42 9 100000 taskNoCheckpoint).2.2.1 rfl

end Evore

namespace Evore

/-- The tracker contents after the submission loop: the marks of the
successful batches (latest first) prepended to the previous contents. -/
theorem processBatches_deployedRounds (r : Nat) (ok : List DeployTask → Bool)
    (batches : List (List DeployTask)) (st : CrankState) :
    (processBatches r ok batches st).deployedRounds
      = ((batches.filter ok).reverse.flatten.map
          (fun t => (t.deployer.deployerAddress, r))) ++ st.deployedRounds := by
  induction batches generalizing st with
  | nil => rfl
  | cons b rest ih =>
    simp only [processBatches, List.filter_cons]
    by_cases hok : ok b = true
    · rw [if_pos hok, hok]
      simp only [if_true, ih]
      simp [markBatch]
    · rw [if_neg hok]
      simp only [hok, Bool.false_eq_true, if_false]
      exact ih _

/-- The submission loop never touches the stored round identifier. -/
theorem processBatches_lastRoundId (r : Nat) (ok : List DeployTask → Bool)
    (batches : List (List DeployTask)) (st : CrankState) :
    (processBatches r ok batches st).lastRoundId = st.lastRoundId := by
  induction batches generalizing st with
  | nil => rfl
  | cons b rest ih =>
    simp only [processBatches]
    rw [ih]
    by_cases hok : ok b = true <;> simp [hok, markBatch]

/-- Membership in the tracker after the submission loop: exactly the old
marks plus the keys of tasks in successfully submitted batches. -/
theorem processBatches_mem (r : Nat) (ok : List DeployTask → Bool)
    (batches : List (List DeployTask)) (st : CrankState) (p : Nat × Nat) :
    p ∈ (processBatches r ok batches st).deployedRounds ↔
      p ∈ st.deployedRounds ∨ ∃ b ∈ batches, ok b = true ∧
        ∃ t ∈ b, p = (t.deployer.deployerAddress, r) := by
  rw [processBatches_deployedRounds]
  simp only [List.mem_append, List.mem_map, List.mem_flatten, List.mem_reverse,
    List.mem_filter]
  constructor
  · rintro (⟨t, ⟨b, ⟨hb, hbok⟩, htb⟩, rfl⟩ | h)
    · exact Or.inr ⟨b, hb, hbok, t, htb, rfl⟩
    · exact Or.inl h
  · rintro (h | ⟨b, hb, hbok, t, htb, rfl⟩)
    · exact Or.inr h
    · exact Or.inl ⟨t, ⟨b, ⟨hb, hbok⟩, htb⟩, rfl⟩

/-- Flattening the chunks of the batching loop recovers the task list, for
any positive batch size, provided the fuel covers the list length. -/
theorem chunkListAux_flatten : ∀ (fuel n : Nat) (l : List DeployTask),
    n ≠ 0 → l.length ≤ fuel → (chunkListAux fuel n l).flatten = l
  | 0, n, l, _, hl => by
    have h0 : l = [] := List.length_eq_zero.mp (Nat.le_zero.mp hl)
    subst h0; rfl
  | fuel + 1, n, l, hn, hl => by
    match l with
    | [] => rfl
    | x :: xs =>
      simp only [chunkListAux, List.flatten_cons]
      rw [chunkListAux_flatten fuel n ((x :: xs).drop n) hn
        (by simp only [List.length_drop, List.length_cons] at hl ⊢; omega)]
      exact List.take_append_drop n (x :: xs)

/-- Flattening the chunked batches recovers the collected task list. -/
theorem chunkList_flatten (n : Nat) (hn : n ≠ 0) (l : List DeployTask) :
    (chunkList n l).flatten = l :=
  chunkListAux_flatten l.length n l hn le_rfl

/-- A task produced by the eligibility check belongs to the evaluated
deployer, which was necessarily unmarked. -/
theorem evalDeployer_some {st : CrankState} {r : Nat} {d : Deployer} {env : DeployerEnv}
    {t : DeployTask} (h : evalDeployer st r d env = some t) :
    t.deployer = d ∧ (d.deployerAddress, r) ∉ st.deployedRounds := by
  simp only [evalDeployer] at h
  split at h
  · exact absurd h (by simp)
  · split at h
    · exact ⟨by cases h; rfl, by assumption⟩
    · exact absurd h (by simp)

/-- An unmarked deployer with sufficient balance is collected, with the
checkpoint signal attached. -/
theorem evalDeployer_eq_some (st : CrankState) (r : Nat) (d : Deployer) (env : DeployerEnv)
    (hmem : (d.deployerAddress, r) ∉ st.deployedRounds)
    (hb : env.balance ≥ calculateRequiredBalance d.bpsFee d.flatFee
      DEPLOY_AMOUNT_LAMPORTS SQUARES_MASK env.minerAcctExists) :
    evalDeployer st r d env
      = some { deployer := d, authId := AUTH_ID, amount := DEPLOY_AMOUNT_LAMPORTS,
               squaresMask := SQUARES_MASK,
               checkpointRound := needsCheckpoint env.minerStatus } := by
  simp [evalDeployer, hmem, hb]

/-- An address occurs in the collected task list at most as often as among
the scanned deployers. -/
theorem collect_count_le (st : CrankState) (r : Nat)
    (envs : List (Deployer × DeployerEnv)) (a : Nat) :
    ((collectToDeploy st r envs).map (fun t => t.deployer.deployerAddress)).count a
      ≤ ((envs.map (fun p => p.1.deployerAddress)).count a) := by
  induction envs with
  | nil => simp [collectToDeploy]
  | cons p rest ih =>
    simp only [collectToDeploy, List.filterMap_cons] at ih ⊢
    cases heval : evalDeployer st r p.1 p.2 with
    | none =>
      simp only [List.map_cons]
      rw [List.count_cons]
      omega
    | some t =>
      have hd := (evalDeployer_some heval).1
      simp only [List.map_cons]
      rw [List.count_cons, List.count_cons, hd]
      omega

/-- A deployer whose dedup key is already marked is never collected. -/
theorem collect_marked_zero (st : CrankState) (r : Nat)
    (envs : List (Deployer × DeployerEnv)) (a : Nat)
    (h : (a, r) ∈ st.deployedRounds) :
    ((collectToDeploy st r envs).map (fun t => t.deployer.deployerAddress)).count a = 0 := by
  induction envs with
  | nil => simp [collectToDeploy]
  | cons p rest ih =>
    simp only [collectToDeploy, List.filterMap_cons] at ih ⊢
    cases heval : evalDeployer st r p.1 p.2 with
    | none => exact ih
    | some t =>
      obtain ⟨hd, hnm⟩ := evalDeployer_some heval
      have hne : t.deployer.deployerAddress ≠ a := by
        intro he
        rw [hd] at he
        rw [he] at hnm
        exact hnm h
      simp only [List.map_cons]
      rw [List.count_cons]
      simp [hne, ih]

/-- C3: on every tick that sees an active round, the stored round identifier
is updated to the observed one; when the stored identifier already equals
the observed one, no dedup marker is cleared; and when it differs, the
marker set is fully cleared, so everything in the resulting tracker stems
from the new round — clearing is driven only by the identifier comparison,
and a subsequent tick observing the same round cannot clear again. -/
theorem C3_round_rollover_clearing (board : Board) (envs : List (Deployer × DeployerEnv))
    (hasLuts : Bool) (ok : List DeployTask → Bool) (st : CrankState)
    (hsent : board.endSlot ≠ U64_MAX) :
    ((runStrategy board envs hasLuts ok st).1.lastRoundId = some board.roundId)
    ∧ (st.lastRoundId = some board.roundId →
        ∀ p ∈ st.deployedRounds, p ∈ (runStrategy board envs hasLuts ok st).1.deployedRounds)
    ∧ (st.lastRoundId ≠ some board.roundId →
        ∀ p ∈ (runStrategy board envs hasLuts ok st).1.deployedRounds,
          p.2 = board.roundId) := by
  simp only [runStrategy, if_neg hsent]
  by_cases hsame : st.lastRoundId = some board.roundId
  · simp only [hsame, if_true]
    split_ifs with h1 h2
    · exact ⟨hsame, fun _ p hp => hp, fun hne => absurd rfl hne⟩
    · exact ⟨hsame, fun _ p hp => hp, fun hne => absurd rfl hne⟩
    · refine ⟨?_, ?_, fun hne => absurd rfl hne⟩
      · rw [processBatches_lastRoundId]; exact hsame
      · intro _ p hp
        rw [processBatches_mem]
        exact Or.inl hp
    · refine ⟨?_, ?_, fun hne => absurd rfl hne⟩
      · rw [processBatches_lastRoundId]; exact hsame
      · intro _ p hp
        rw [processBatches_mem]
        exact Or.inl hp
  · simp only [hsame, if_false]
    split_ifs with h1 h2
    · exact ⟨rfl, fun hs => hs.elim, fun _ p hp => absurd hp (List.not_mem_nil p)⟩
    · exact ⟨rfl, fun hs => hs.elim, fun _ p hp => absurd hp (List.not_mem_nil p)⟩
    · refine ⟨?_, fun hs => hs.elim, ?_⟩
      · rw [processBatches_lastRoundId]
      · intro _ p hp
        rw [processBatches_mem] at hp
        rcases hp with h | ⟨b, _, _, t, _, rfl⟩
        · exact absurd h (List.not_mem_nil p)
        · rfl
    · refine ⟨?_, fun hs => hs.elim, ?_⟩
      · rw [processBatches_lastRoundId]
      · intro _ p hp
        rw [processBatches_mem] at hp
        rcases hp with h | ⟨b, _, _, t, _, rfl⟩
        · exact absurd h (List.not_mem_nil p)
        · rfl

/-- C3 witness: a tick observing round 5 after round 4 updates the stored
identifier and leaves only round-5 marks. -/
theorem C3_round_rollover_clearing_witness :
    (runStrategy ⟨5, 0, 100, 0, 0⟩ [(deployerEx, envWithMiner)] true
      (fun _ => true) ⟨some 4, [(9, 4)]⟩).1.lastRoundId = some 5 :=
  (C3_round_rollover_clearing ⟨5, 0, 100, 0, 0⟩ [(deployerEx, envWithMiner)] true
    (fun _ => true) ⟨some 4, [(9, 4)]⟩ (by decide)).1

/-- C4: no account is scheduled when the slots remaining exceed the ceiling
150 or fall below the floor 10 (in particular at 151 and at 9), and an
eligible unmarked account with exactly 150 slots remaining is scheduled. -/
theorem C4_deploy_window_gating :
    (∀ (board : Board) (envs : List (Deployer × DeployerEnv)) (hasLuts : Bool)
        (ok : List DeployTask → Bool) (st : CrankState),
      ((board.endSlot : Int) - (board.currentSlot : Int) > (DEPLOY_SLOTS_BEFORE_END : Int)
        ∨ (board.endSlot : Int) - (board.currentSlot : Int) < (MIN_SLOTS_TO_DEPLOY : Int)) →
      (runStrategy board envs hasLuts ok st).2 = [])
    ∧ (∀ (board : Board) (envs : List (Deployer × DeployerEnv)) (hasLuts : Bool)
        (ok : List DeployTask → Bool) (st : CrankState) (d : Deployer) (env : DeployerEnv),
      board.endSlot ≠ U64_MAX →
      (board.endSlot : Int) - (board.currentSlot : Int) = (DEPLOY_SLOTS_BEFORE_END : Int) →
      (d, env) ∈ envs →
      (d.deployerAddress, board.roundId) ∉ st.deployedRounds →
      env.balance ≥ calculateRequiredBalance d.bpsFee d.flatFee
        DEPLOY_AMOUNT_LAMPORTS SQUARES_MASK env.minerAcctExists →
      d.deployerAddress ∈ batchAddrs (runStrategy board envs hasLuts ok st).2) := by
  constructor
  · intro board envs hasLuts ok st hout
    simp only [runStrategy]
    split_ifs <;> first | rfl | omega
  · intro board envs hasLuts ok st d env hsent heq hin hmem hb
    have h1 : ¬((board.endSlot : Int) - (board.currentSlot : Int)
        < (MIN_SLOTS_TO_DEPLOY : Int)) := by
      rw [heq]; norm_num [MIN_SLOTS_TO_DEPLOY, DEPLOY_SLOTS_BEFORE_END]
    have h2 : ¬((board.endSlot : Int) - (board.currentSlot : Int)
        > (DEPLOY_SLOTS_BEFORE_END : Int)) := by
      rw [heq]; norm_num
    simp only [runStrategy, if_neg hsent, if_neg h1, if_neg h2]
    have hbs : (if hasLuts = true then MAX_BATCH_SIZE_WITH_LUT
        else MAX_BATCH_SIZE_NO_LUT) ≠ 0 := by
      cases hasLuts <;> decide
    set st1 := if st.lastRoundId = some board.roundId then st
      else (⟨some board.roundId, []⟩ : CrankState) with hst1
    have hmem1 : (d.deployerAddress, board.roundId) ∉ st1.deployedRounds := by
      rw [hst1]
      split_ifs with hsame
      · exact hmem
      · exact List.not_mem_nil _
    have heval := evalDeployer_eq_some st1 board.roundId d env hmem1 hb
    have htd : DeployTask.mk d AUTH_ID DEPLOY_AMOUNT_LAMPORTS SQUARES_MASK
        (needsCheckpoint env.minerStatus) ∈ collectToDeploy st1 board.roundId envs :=
      List.mem_filterMap.mpr ⟨(d, env), hin, heval⟩
    simp only [batchAddrs]
    rw [chunkList_flatten _ hbs]
    exact List.mem_map.mpr ⟨_, htd, rfl⟩

/-- C4 witness: 151 slots remaining schedules nothing, 9 slots remaining
schedules nothing, and 150 slots remaining schedules the eligible account. -/
theorem C4_deploy_window_gating_witness :
    (runStrategy ⟨5, 0, 151, 0, 0⟩ [(deployerEx, envWithMiner)] true
      (fun _ => true) ⟨none, []⟩).2 = []
    ∧ (runStrategy ⟨5, 0, 9, 0, 0⟩ [(deployerEx, envWithMiner)] true
      (fun _ => true) ⟨none, []⟩).2 = []
    ∧ (1 : Nat) ∈ batchAddrs (runStrategy ⟨5, 0, 150, 0, 0⟩
      [(deployerEx, envWithMiner)] true (fun _ => true) ⟨none, []⟩).2 :=
  ⟨C4_deploy_window_gating.1 ⟨5, 0, 151, 0, 0⟩ [(deployerEx, envWithMiner)] true
    (fun _ => true) ⟨none, []⟩ (by norm_num [DEPLOY_SLOTS_BEFORE_END]),
   C4_deploy_window_gating.1 ⟨5, 0, 9, 0, 0⟩ [(deployerEx, envWithMiner)] true
    (fun _ => true) ⟨none, []⟩ (by norm_num [MIN_SLOTS_TO_DEPLOY]),
   C4_deploy_window_gating.2 ⟨5, 0, 150, 0, 0⟩ [(deployerEx, envWithMiner)] true
    (fun _ => true) ⟨none, []⟩ deployerEx envWithMiner (by decide)
    (by norm_num [DEPLOY_SLOTS_BEFORE_END]) (by decide) (by decide) (by decide)⟩

/-- C5: after the per-batch submission loop, every task of every
successfully submitted batch is marked in the tracker, and the tracker
contains exactly the previous marks plus the keys of tasks in successful
batches — so a failed batch marks nothing and affects neither the other
batches of the tick nor the loop, leaving its tasks retryable. -/
theorem C5_submission_marking (r : Nat) (ok : List DeployTask → Bool)
    (batches : List (List DeployTask)) (st : CrankState) :
    (∀ b ∈ batches, ok b = true → ∀ t ∈ b,
        (t.deployer.deployerAddress, r) ∈ (processBatches r ok batches st).deployedRounds)
    ∧ (∀ p : Nat × Nat, p ∈ (processBatches r ok batches st).deployedRounds ↔
        p ∈ st.deployedRounds ∨ ∃ b ∈ batches, ok b = true ∧
          ∃ t ∈ b, p = (t.deployer.deployerAddress, r)) := by
  constructor
  · intro b hb hok t ht
    rw [processBatches_mem]
    exact Or.inr ⟨b, hb, hok, t, ht, rfl⟩
  · intro p
    exact processBatches_mem r ok batches st p

/-- C5 witness: with one succeeding and one failing batch, the successful
batch's task is marked and the failing batch's task is characterized as
unmarked by the membership description. -/
theorem C5_submission_marking_witness :
    (1, 5) ∈ (processBatches 5 (fun b => decide (b.length = 1))
      [[taskNoCheckpoint], [{ taskNoCheckpoint with deployer := ⟨7, 8, 0, 0⟩ },
        { taskNoCheckpoint with deployer := ⟨9, 8, 0, 0⟩ }]] ⟨some 5, []⟩).deployedRounds
    ∧ ((7, 5) ∈ (processBatches 5 (fun b => decide (b.length = 1))
      [[taskNoCheckpoint], [{ taskNoCheckpoint with deployer := ⟨7, 8, 0, 0⟩ },
        { taskNoCheckpoint with deployer := ⟨9, 8, 0, 0⟩ }]] ⟨some 5, []⟩).deployedRounds ↔
      (7, 5) ∈ ([] : List (Nat × Nat)) ∨
        ∃ b ∈ [[taskNoCheckpoint], [{ taskNoCheckpoint with deployer := ⟨7, 8, 0, 0⟩ },
          { taskNoCheckpoint with deployer := ⟨9, 8, 0, 0⟩ }]],
          (fun (b : List DeployTask) => decide (b.length = 1)) b = true ∧
            ∃ t ∈ b, (7, 5) = (t.deployer.deployerAddress, 5)) :=
  ⟨(C5_submission_marking 5 (fun b => decide (b.length = 1))
      [[taskNoCheckpoint], [{ taskNoCheckpoint with deployer := ⟨7, 8, 0, 0⟩ },
        { taskNoCheckpoint with deployer := ⟨9, 8, 0, 0⟩ }]] ⟨some 5, []⟩).1
      [taskNoCheckpoint] (by simp) (by decide) taskNoCheckpoint (by simp),
   (C5_submission_marking 5 (fun b => decide (b.length = 1))
      [[taskNoCheckpoint], [{ taskNoCheckpoint with deployer := ⟨7, 8, 0, 0⟩ },
        { taskNoCheckpoint with deployer := ⟨9, 8, 0, 0⟩ }]] ⟨some 5, []⟩).2 (7, 5)⟩

end Evore

namespace Evore

/-- The runStrategy tick, written with its st1 state and batch list named. -/
theorem runStrategy_eq (board : Board) (envs : List (Deployer × DeployerEnv))
    (hasLuts : Bool) (ok : List DeployTask → Bool) (st : CrankState) :
    runStrategy board envs hasLuts ok st =
      if board.endSlot = U64_MAX then (st, [])
      else if ((board.endSlot : Int) - (board.currentSlot : Int))
          < (MIN_SLOTS_TO_DEPLOY : Int) then (clearedState st board.roundId, [])
      else if ((board.endSlot : Int) - (board.currentSlot : Int))
          > (DEPLOY_SLOTS_BEFORE_END : Int) then (clearedState st board.roundId, [])
      else (processBatches board.roundId ok
              (tickBatches board envs hasLuts (clearedState st board.roundId))
              (clearedState st board.roundId),
            tickBatches board envs hasLuts (clearedState st board.roundId)) := rfl

/-- After the rollover comparison the stored identifier is the observed one. -/
theorem clearedState_lastRoundId (st : CrankState) (roundId : Nat) :
    (clearedState st roundId).lastRoundId = some roundId := by
  simp only [clearedState]
  split_ifs with h
  · exact h
  · rfl

/-- Flattening a tick's batches recovers its collected task list. -/
theorem tickBatches_flatten (board : Board) (envs : List (Deployer × DeployerEnv))
    (hasLuts : Bool) (st1 : CrankState) :
    (tickBatches board envs hasLuts st1).flatten
      = collectToDeploy st1 board.roundId envs := by
  simp only [tickBatches]
  exact chunkList_flatten _ (by cases hasLuts <;> decide) _

/-- Batch address lists concatenate over appended batch lists. -/
theorem batchAddrs_append (b1 b2 : List (List DeployTask)) :
    batchAddrs (b1 ++ b2) = batchAddrs b1 ++ batchAddrs b2 := by
  simp [batchAddrs]

/-- Within one tick an address is submitted at most once when the scanned
deployer addresses are distinct. -/
theorem tick_count_le (board : Board) (envs : List (Deployer × DeployerEnv))
    (hasLuts : Bool) (ok : List DeployTask → Bool) (st : CrankState) (a : Nat)
    (hnd : (envs.map (fun p => p.1.deployerAddress)).Nodup) :
    (batchAddrs (runStrategy board envs hasLuts ok st).2).count a ≤ 1 := by
  have henv : ((envs.map (fun p => p.1.deployerAddress)).count a) ≤ 1 :=
    List.nodup_iff_count_le_one.mp hnd a
  rw [runStrategy_eq]
  split_ifs with h0 h1 h2
  · simp [batchAddrs]
  · simp [batchAddrs]
  · simp [batchAddrs]
  · simp only [batchAddrs]
    rw [tickBatches_flatten]
    exact le_trans (collect_count_le _ _ _ _) henv

/-- A tick that observes the stored round never resubmits a marked address,
keeps its mark, and keeps the stored identifier. -/
theorem tick_marked_zero (board : Board) (envs : List (Deployer × DeployerEnv))
    (hasLuts : Bool) (ok : List DeployTask → Bool) (st : CrankState) (a r : Nat)
    (hr : board.roundId = r) (hlast : st.lastRoundId = some r)
    (hmark : (a, r) ∈ st.deployedRounds) :
    (batchAddrs (runStrategy board envs hasLuts ok st).2).count a = 0
    ∧ (a, r) ∈ (runStrategy board envs hasLuts ok st).1.deployedRounds
    ∧ (runStrategy board envs hasLuts ok st).1.lastRoundId = some r := by
  subst hr
  have hcl : clearedState st board.roundId = st := by
    simp [clearedState, hlast]
  rw [runStrategy_eq]
  split_ifs with h0 h1 h2
  · exact ⟨by simp [batchAddrs], hmark, hlast⟩
  · exact ⟨by simp [batchAddrs], by rw [hcl]; exact hmark, by rw [hcl]; exact hlast⟩
  · exact ⟨by simp [batchAddrs], by rw [hcl]; exact hmark, by rw [hcl]; exact hlast⟩
  · rw [hcl]
    refine ⟨?_, ?_, ?_⟩
    · simp only [batchAddrs]
      rw [tickBatches_flatten]
      exact collect_marked_zero st board.roundId envs a hmark
    · rw [processBatches_mem]
      exact Or.inl hmark
    · rw [processBatches_lastRoundId]
      exact hlast

/-- When all submissions succeed, every address a tick submits ends up
marked for the observed round, and the stored identifier is updated. -/
theorem tick_outputs_marked (board : Board) (envs : List (Deployer × DeployerEnv))
    (hasLuts : Bool) (ok : List DeployTask → Bool) (st : CrankState) (a r : Nat)
    (hr : board.roundId = r) (hok : ∀ b, ok b = true)
    (hmem : a ∈ batchAddrs (runStrategy board envs hasLuts ok st).2) :
    (a, r) ∈ (runStrategy board envs hasLuts ok st).1.deployedRounds
    ∧ (runStrategy board envs hasLuts ok st).1.lastRoundId = some r := by
  subst hr
  rw [runStrategy_eq] at hmem ⊢
  split_ifs at hmem ⊢ with h0 h1 h2
  · simp [batchAddrs] at hmem
  · simp [batchAddrs] at hmem
  · simp [batchAddrs] at hmem
  · simp only [batchAddrs, List.mem_map] at hmem
    obtain ⟨t, htf, hta⟩ := hmem
    obtain ⟨b, hbb, htb⟩ := List.mem_flatten.mp htf
    constructor
    · rw [processBatches_mem]
      exact Or.inr ⟨b, hbb, hok b, t, htb, by rw [hta]⟩
    · rw [processBatches_lastRoundId]
      exact clearedState_lastRoundId st board.roundId

/-- Over ticks that keep observing round r, a marked address is never
submitted again. -/
theorem runTicks_marked_zero (a r : Nat) : ∀ (ticks : List TickInput) (st : CrankState),
    (∀ ti ∈ ticks, ti.board.roundId = r) →
    (a, r) ∈ st.deployedRounds → st.lastRoundId = some r →
    (batchAddrs (runTicks st ticks).2).count a = 0 := by
  intro ticks
  induction ticks with
  | nil => intro st _ _ _; simp [runTicks, batchAddrs]
  | cons ti rest ih =>
    intro st hr hmark hlast
    obtain ⟨h0, h1, h2⟩ := tick_marked_zero ti.board ti.envs ti.hasLuts ti.submitOk st a r
      (hr ti (List.mem_cons_self ti rest)) hlast hmark
    simp only [runTicks]
    rw [batchAddrs_append, List.count_append, h0]
    rw [ih _ (fun x hx => hr x (List.mem_cons_of_mem ti hx)) h1 h2]

/-- Over ticks that keep observing round r, with distinct scanned addresses
and all submissions succeeding, any address is submitted at most once. -/
theorem runTicks_count_le (a r : Nat) : ∀ (ticks : List TickInput) (st : CrankState),
    (∀ ti ∈ ticks, ti.board.roundId = r) →
    (∀ ti ∈ ticks, (ti.envs.map (fun p => p.1.deployerAddress)).Nodup) →
    (∀ ti ∈ ticks, ∀ b, ti.submitOk b = true) →
    (batchAddrs (runTicks st ticks).2).count a ≤ 1 := by
  intro ticks
  induction ticks with
  | nil => intro st _ _ _; simp [runTicks, batchAddrs]
  | cons ti rest ih =>
    intro st hr hnd hok
    simp only [runTicks]
    rw [batchAddrs_append, List.count_append]
    by_cases hmem : a ∈ batchAddrs (runStrategy ti.board ti.envs ti.hasLuts ti.submitOk st).2
    · obtain ⟨hm, hl⟩ := tick_outputs_marked ti.board ti.envs ti.hasLuts ti.submitOk st a r
        (hr ti (List.mem_cons_self ti rest)) (hok ti (List.mem_cons_self ti rest)) hmem
      have hz := runTicks_marked_zero a r rest
        (runStrategy ti.board ti.envs ti.hasLuts ti.submitOk st).1
        (fun x hx => hr x (List.mem_cons_of_mem ti hx)) hm hl
      have hc := tick_count_le ti.board ti.envs ti.hasLuts ti.submitOk st a
        (hnd ti (List.mem_cons_self ti rest))
      omega
    · have hz : (batchAddrs (runStrategy ti.board ti.envs ti.hasLuts ti.submitOk st).2).count a
          = 0 := List.count_eq_zero.mpr hmem
      have hrest := ih (runStrategy ti.board ti.envs ti.hasLuts ti.submitOk st).1
        (fun x hx => hr x (List.mem_cons_of_mem ti hx))
        (fun x hx => hnd x (List.mem_cons_of_mem ti hx))
        (fun x hx => hok x (List.mem_cons_of_mem ti hx))
      omega

/-- C1: across any sequence of polling ticks that all observe the same round
identifier r, with distinct managed deployer addresses and every submission
accepted, each (account, auth id) pair appears in the submitted batches at
most once; moreover a pair whose dedup key for r is already marked while the
stored identifier is r is never added to a deploy list by a tick observing
r. -/
theorem C1_dedup_within_round (r a : Nat) (ticks : List TickInput) (st0 : CrankState)
    (hr : ∀ ti ∈ ticks, ti.board.roundId = r)
    (hnd : ∀ ti ∈ ticks, (ti.envs.map (fun p => p.1.deployerAddress)).Nodup)
    (hok : ∀ ti ∈ ticks, ∀ b, ti.submitOk b = true) :
    ((batchAddrs (runTicks st0 ticks).2).count a ≤ 1)
    ∧ (∀ (board : Board) (envs : List (Deployer × DeployerEnv)) (hasLuts : Bool)
        (ok : List DeployTask → Bool) (st : CrankState),
      board.roundId = r → st.lastRoundId = some r → (a, r) ∈ st.deployedRounds →
      (batchAddrs (runStrategy board envs hasLuts ok st).2).count a = 0) :=
  ⟨runTicks_count_le a r ticks st0 hr hnd hok,
   fun board envs hasLuts ok st hbr hlast hmark =>
     (tick_marked_zero board envs hasLuts ok st a r hbr hlast hmark).1⟩

/-- C1 witness: two consecutive ticks of round 5 over one always-eligible
deployer with accepted submissions yield exactly one submission, which is at
most one. -/
theorem C1_dedup_within_round_witness :
    (batchAddrs (runTicks ⟨none, []⟩ [tickEx, tickEx]).2).count 1 = 1
    ∧ (batchAddrs (runTicks ⟨none, []⟩ [tickEx, tickEx]).2).count 1 ≤ 1 :=
  ⟨by decide,
   (C1_dedup_within_round 5 1 [tickEx, tickEx] ⟨none, []⟩
     (fun ti h => by
       cases h with
       | head => rfl
       | tail _ h2 =>
         cases h2 with
         | head => rfl
         | tail _ h3 => cases h3)
     (fun ti h => by
       cases h with
       | head => decide
       | tail _ h2 =>
         cases h2 with
         | head => decide
         | tail _ h3 => cases h3)
     (fun ti h => by
       cases h with
       | head => intro b; rfl
       | tail _ h2 =>
         cases h2 with
         | head => intro b; rfl
         | tail _ h3 => cases h3)).1⟩

end Evore

namespace Evore

theorem keysOf_setAssoc (k v : Nat) (m : List (Nat × Nat)) :
    keysOf (setAssoc k v m) = addKey (keysOf m) k := by
  induction m with
  | nil => rfl
  | cons p rest ih =>
    simp only [setAssoc]
    by_cases hp : p.1 = k
    · simp [keysOf, addKey, hp]
    · simp only [hp, if_false, keysOf, List.map_cons, addKey] at ih ⊢
      rw [ih]
      by_cases hk : k ∈ rest.map Prod.fst
      · simp [hk, hp, Ne.symm hp]
      · simp [hk, hp, Ne.symm hp]

theorem lookupA_setAssoc (k v k1 : Nat) (m : List (Nat × Nat)) :
    lookupA k1 (setAssoc k v m) = if k1 = k then some v else lookupA k1 m := by
  induction m with
  | nil =>
    simp only [setAssoc, lookupA]
    split_ifs with hA hB hB
    · rfl
    · exact absurd hA.symm hB
    · exact absurd hB.symm hA
    · rfl
  | cons p rest ih =>
    simp only [setAssoc]
    by_cases hp : p.1 = k
    · subst hp
      simp only [if_pos rfl, lookupA]
      split_ifs with hA hB hB
      · rfl
      · exact absurd hA.symm hB
      · exact absurd hB.symm hA
      · rfl
    · rw [if_neg hp]
      simp only [lookupA]
      rw [ih]
      split_ifs with hA hB
      · exact absurd (hA.trans hB) hp
      · rfl
      · rfl
      · rfl

theorem lookupA_eq_none (k : Nat) (m : List (Nat × Nat)) (h : k ∉ keysOf m) :
    lookupA k m = none := by
  induction m with
  | nil => rfl
  | cons p rest ih =>
    simp only [keysOf, List.map_cons, List.mem_cons] at h
    push_neg at h
    simp only [lookupA]
    rw [if_neg (fun hh => h.1 hh.symm)]
    exact ih (by simpa [keysOf] using h.2)

theorem nodup_addKey (ks : List Nat) (k : Nat) (h : ks.Nodup) : (addKey ks k).Nodup := by
  simp only [addKey]
  split_ifs with hk
  · exact h
  · simp [List.nodup_append, h, hk]

theorem assoc_ext : ∀ (m m2 : List (Nat × Nat)),
    keysOf m = keysOf m2 → (∀ k, lookupA k m = lookupA k m2) →
    (keysOf m).Nodup → m = m2
  | [], m2, hk, _, _ => by
    have h0 : keysOf m2 = [] := hk.symm
    simp only [keysOf, List.map_eq_nil_iff] at h0
    rw [h0]
  | p :: t, [], hk, _, _ => by
    simp [keysOf] at hk
  | p :: t, q :: t2, hk, hl, hnd => by
    simp only [keysOf, List.map_cons, List.cons.injEq] at hk
    obtain ⟨hpq, htk⟩ := hk
    have hval : p.2 = q.2 := by
      have h1 := hl p.1
      simp only [lookupA] at h1
      simp only [hpq.symm, if_pos rfl] at h1
      exact Option.some_inj.mp h1
    simp only [keysOf, List.map_cons, List.nodup_cons] at hnd
    have hnd2 : (keysOf t).Nodup := hnd.2
    have hpt : p.1 ∉ keysOf t := hnd.1
    have hqt2 : p.1 ∉ keysOf t2 := by
      simp only [keysOf] at hpt ⊢
      rw [← htk]
      exact hpt
    have htl : ∀ k, lookupA k t = lookupA k t2 := by
      intro k
      by_cases hkp : k = p.1
      · subst hkp
        rw [lookupA_eq_none _ _ hpt, lookupA_eq_none _ _ hqt2]
      · have h1 := hl k
        simp only [lookupA] at h1
        have hp1 : ¬ p.1 = k := fun hh => hkp hh.symm
        have hq1 : ¬ q.1 = k := by rw [← hpq]; exact hp1
        rw [if_neg hp1, if_neg hq1] at h1
        exact h1
    have ht : t = t2 := assoc_ext t t2 htk htl hnd2
    have hp2 : p = q := Prod.ext hpq hval
    rw [hp2, ht]


theorem replay_nil (m : List (Nat × Nat)) : replay m [] = m := rfl

theorem replay_cons (m : List (Nat × Nat)) (p : Nat × Nat) (rest : List (Nat × Nat)) :
    replay m (p :: rest) = replay (setAssoc p.1 p.2 m) rest := rfl

theorem keysOf_replay (ops : List (Nat × Nat)) : ∀ m : List (Nat × Nat),
    keysOf (replay m ops) = ops.foldl (fun ks p => addKey ks p.1) (keysOf m) := by
  induction ops with
  | nil => intro m; rfl
  | cons p rest ih =>
    intro m
    rw [replay_cons, List.foldl_cons, ih, keysOf_setAssoc]

theorem lastWrite_foldl (k : Nat) : ∀ (ops : List (Nat × Nat)) (init : Option Nat),
    ops.foldl (fun acc p => if p.1 = k then some p.2 else acc) init
      = match lastWrite k ops with
        | some v => some v
        | none => init := by
  intro ops
  induction ops with
  | nil => intro init; rfl
  | cons p rest ih =>
    intro init
    rw [List.foldl_cons, ih]
    have h2 : lastWrite k (p :: rest)
        = match lastWrite k rest with
          | some v => some v
          | none => if p.1 = k then some p.2 else none := by
      have h3 := ih (if p.1 = k then some p.2 else none)
      rw [← h3]
      rfl
    rw [h2]
    cases lastWrite k rest with
    | some v => rfl
    | none =>
      by_cases hp : p.1 = k
      · simp [hp]
      · simp [hp]

theorem lastWrite_cons (k : Nat) (p : Nat × Nat) (rest : List (Nat × Nat)) :
    lastWrite k (p :: rest)
      = match lastWrite k rest with
        | some v => some v
        | none => if p.1 = k then some p.2 else none := by
  simp only [lastWrite, List.foldl_cons]
  have := lastWrite_foldl k rest (if p.1 = k then some p.2 else none)
  simp only [lastWrite] at this
  rw [this]

theorem lookupA_replay (k : Nat) : ∀ (ops m : List (Nat × Nat)),
    lookupA k (replay m ops)
      = match lastWrite k ops with
        | some v => some v
        | none => lookupA k m := by
  intro ops
  induction ops with
  | nil => intro m; rfl
  | cons p rest ih =>
    intro m
    rw [replay_cons, ih, lastWrite_cons]
    cases lastWrite k rest with
    | some v => rfl
    | none =>
      rw [lookupA_setAssoc]
      by_cases hp : p.1 = k
      · subst hp
        simp
      · rw [if_neg (fun hh => hp hh.symm), if_neg hp]

theorem foldl_addKey_mono : ∀ (ops : List (Nat × Nat)) (ks : List Nat) (x : Nat),
    x ∈ ks → x ∈ ops.foldl (fun ks p => addKey ks p.1) ks := by
  intro ops
  induction ops with
  | nil => intro ks x hx; exact hx
  | cons p rest ih =>
    intro ks x hx
    rw [List.foldl_cons]
    apply ih
    simp only [addKey]
    split_ifs with h
    · exact hx
    · exact List.mem_append_left _ hx

theorem mem_foldl_addKey : ∀ (ops : List (Nat × Nat)) (ks : List Nat) (p : Nat × Nat),
    p ∈ ops → p.1 ∈ ops.foldl (fun ks q => addKey ks q.1) ks := by
  intro ops
  induction ops with
  | nil => intro ks p hp; exact absurd hp (List.not_mem_nil p)
  | cons q rest ih =>
    intro ks p hp
    rw [List.foldl_cons]
    cases hp with
    | head =>
      apply foldl_addKey_mono
      simp only [addKey]
      split_ifs with h
      · exact h
      · exact List.mem_append_right _ (List.mem_singleton_self _)
    | tail _ h2 => exact ih _ p h2

theorem addKey_foldl_fixed : ∀ (ops : List (Nat × Nat)) (ks : List Nat),
    (∀ p ∈ ops, p.1 ∈ ks) → ops.foldl (fun ks p => addKey ks p.1) ks = ks := by
  intro ops
  induction ops with
  | nil => intro ks _; rfl
  | cons p rest ih =>
    intro ks hall
    rw [List.foldl_cons]
    have h1 : addKey ks p.1 = ks := by
      simp only [addKey]
      rw [if_pos (hall p (List.mem_cons_self p rest))]
    rw [h1]
    exact ih ks (fun q hq => hall q (List.mem_cons_of_mem p hq))

theorem nodup_foldl_addKey : ∀ (ops : List (Nat × Nat)) (ks : List Nat),
    ks.Nodup → (ops.foldl (fun ks p => addKey ks p.1) ks).Nodup := by
  intro ops
  induction ops with
  | nil => intro ks h; exact h
  | cons p rest ih =>
    intro ks h
    rw [List.foldl_cons]
    exact ih _ (nodup_addKey ks p.1 h)

theorem replay_idem (ops m : List (Nat × Nat)) (hnd : (keysOf m).Nodup) :
    replay (replay m ops) ops = replay m ops := by
  have hkeys : keysOf (replay (replay m ops) ops) = keysOf (replay m ops) := by
    rw [keysOf_replay]
    apply addKey_foldl_fixed
    intro p hp
    rw [keysOf_replay]
    exact mem_foldl_addKey ops (keysOf m) p hp
  apply assoc_ext _ _ hkeys
  · intro k
    rw [lookupA_replay, lookupA_replay]
    cases lastWrite k ops with
    | some v => rfl
    | none => rfl
  · rw [hkeys, keysOf_replay]
    exact nodup_foldl_addKey ops (keysOf m) hnd


theorem processLut_of_some (statics : List Nat) (reg : LutRegistry) (t : LutTable)
    (s : Nat) (h : reg.sharedLut = some s) :
    (processLut statics reg t).sharedLut = some s
    ∧ (processLut statics reg t).sharedLutAccounts = reg.sharedLutAccounts := by
  simp only [processLut]
  split_ifs with h1 h2
  · rw [h] at h1
    exact absurd h1.2 (by simp)
  · exact ⟨h, rfl⟩
  · exact ⟨h, rfl⟩

theorem loadAllLuts_of_some (statics : List Nat) : ∀ (tables : List LutTable)
    (reg : LutRegistry) (s : Nat), reg.sharedLut = some s →
    (loadAllLuts statics reg tables).sharedLut = some s
    ∧ (loadAllLuts statics reg tables).sharedLutAccounts = reg.sharedLutAccounts := by
  intro tables
  induction tables with
  | nil => intro reg s h; exact ⟨h, rfl⟩
  | cons t rest ih =>
    intro reg s h
    obtain ⟨h1, h2⟩ := processLut_of_some statics reg t s h
    obtain ⟨h3, h4⟩ := ih (processLut statics reg t) s h1
    exact ⟨h3, h4.trans h2⟩

theorem loadAllLuts_none (statics : List Nat) : ∀ (tables : List LutTable)
    (reg : LutRegistry), (loadAllLuts statics reg tables).sharedLut = none →
    reg.sharedLut = none ∧ ∀ t ∈ tables, hasAllStatic statics t = false := by
  intro tables
  induction tables with
  | nil =>
    intro reg h
    exact ⟨h, fun t ht => absurd ht (List.not_mem_nil t)⟩
  | cons t rest ih =>
    intro reg h
    obtain ⟨hp, hrest⟩ := ih (processLut statics reg t) h
    have hreg : reg.sharedLut = none ∧ hasAllStatic statics t = false := by
      by_cases hs : hasAllStatic statics t = true ∧ reg.sharedLut = none
      · exfalso
        simp only [processLut, if_pos hs] at hp
        exact Option.noConfusion hp
      · have hkeep : (processLut statics reg t).sharedLut = reg.sharedLut := by
          simp only [processLut, if_neg hs]
          split_ifs <;> rfl
        rw [hkeep] at hp
        refine ⟨hp, ?_⟩
        by_cases hall : hasAllStatic statics t = true
        · exact absurd ⟨hall, hp⟩ hs
        · exact Bool.eq_false_iff.mpr hall
    refine ⟨hreg.1, fun x hx => ?_⟩
    cases hx with
    | head => exact hreg.2
    | tail _ h2 => exact hrest x h2

theorem loadAllLuts_none_fixed (statics : List Nat) : ∀ (tables : List LutTable)
    (reg : LutRegistry), reg.sharedLut = none →
    (∀ t ∈ tables, hasAllStatic statics t = false) →
    (loadAllLuts statics reg tables).sharedLut = none
    ∧ (loadAllLuts statics reg tables).sharedLutAccounts = reg.sharedLutAccounts := by
  intro tables
  induction tables with
  | nil => intro reg h _; exact ⟨h, rfl⟩
  | cons t rest ih =>
    intro reg h hall
    have hft : hasAllStatic statics t = false := hall t (List.mem_cons_self t rest)
    have hkeep : (processLut statics reg t).sharedLut = none
        ∧ (processLut statics reg t).sharedLutAccounts = reg.sharedLutAccounts := by
      simp only [processLut]
      rw [if_neg (by simp [hft])]
      split_ifs <;> exact ⟨h, rfl⟩
    obtain ⟨h1, h2⟩ := ih (processLut statics reg t) hkeep.1
      (fun x hx => hall x (List.mem_cons_of_mem t hx))
    exact ⟨h1, h2.trans hkeep.2⟩

theorem loadAllLuts_minerLuts (statics : List Nat) : ∀ (tables : List LutTable),
    (∀ t ∈ tables, hasAllStatic statics t = true → t.addresses.length ≠ 5) →
    ∀ reg : LutRegistry,
    (loadAllLuts statics reg tables).minerLuts = replay reg.minerLuts (lutOps tables) := by
  intro tables
  induction tables with
  | nil => intro _ reg; rfl
  | cons t rest ih =>
    intro hlen reg
    have hlen2 : ∀ x ∈ rest, hasAllStatic statics x = true → x.addresses.length ≠ 5 :=
      fun x hx => hlen x (List.mem_cons_of_mem t hx)
    have hstep : loadAllLuts statics reg (t :: rest)
        = loadAllLuts statics (processLut statics reg t) rest := rfl
    by_cases h5 : t.addresses.length = 5
    · have hns : ¬ hasAllStatic statics t = true :=
        fun hh => (hlen t (List.mem_cons_self t rest) hh) h5
      have hproc : (processLut statics reg t).minerLuts
          = setAssoc (t.addresses.getD 2 0) t.address reg.minerLuts := by
        simp only [processLut]
        rw [if_neg (by simp [hns]), if_pos h5]
      have hops : lutOps (t :: rest)
          = (t.addresses.getD 2 0, t.address) :: lutOps rest := by
        simp only [lutOps, List.filterMap_cons, h5, if_pos]
      rw [hstep, ih hlen2, hproc, hops, replay_cons]
    · have hproc : (processLut statics reg t).minerLuts = reg.minerLuts := by
        simp only [processLut, h5, if_false]
        split_ifs <;> rfl
      have hops : lutOps (t :: rest) = lutOps rest := by
        simp only [lutOps, List.filterMap_cons, h5, if_false]
      rw [hstep, ih hlen2, hproc, hops]


/-- C9: running table discovery twice over the same unchanged set of tables
yields the same classification both times: the adopted shared table, the
cached shared address set and the per-account table map all coincide after
the second run, even though the adopted shared table no longer passes the
first-match guard then (with more than five distinct infrastructure
addresses, a superset table can never be mistaken for a five-entry
per-account table on the rerun). -/
theorem C9_discovery_idempotent (statics : List Nat) (tables : List LutTable)
    (hnd : statics.Nodup) (hlen : 5 < statics.length) :
    loadAllLuts statics (loadAllLuts statics emptyRegistry tables) tables
      = loadAllLuts statics emptyRegistry tables := by
  have hst : ∀ t ∈ tables, hasAllStatic statics t = true → t.addresses.length ≠ 5 := by
    intro t _ hall h5
    have hsub : ∀ a ∈ statics, a ∈ t.addresses := by
      intro a ha
      exact of_decide_eq_true (List.all_eq_true.mp hall a ha)
    have h1 : statics.toFinset.card = statics.length := List.toFinset_card_of_nodup hnd
    have h2 : statics.toFinset ⊆ t.addresses.toFinset := by
      intro a ha
      rw [List.mem_toFinset] at ha ⊢
      exact hsub a ha
    have h3 : t.addresses.toFinset.card ≤ t.addresses.length := t.addresses.toFinset_card_le
    have h4 := Finset.card_le_card h2
    omega
  set reg1 := loadAllLuts statics emptyRegistry tables with hreg1
  have hminer : (loadAllLuts statics reg1 tables).minerLuts = reg1.minerLuts := by
    rw [loadAllLuts_minerLuts statics tables hst reg1, hreg1,
      loadAllLuts_minerLuts statics tables hst emptyRegistry]
    exact replay_idem _ _ List.nodup_nil
  have hshared : (loadAllLuts statics reg1 tables).sharedLut = reg1.sharedLut
      ∧ (loadAllLuts statics reg1 tables).sharedLutAccounts = reg1.sharedLutAccounts := by
    cases hcase : reg1.sharedLut with
    | some s =>
      obtain ⟨h1, h2⟩ := loadAllLuts_of_some statics tables reg1 s hcase
      exact ⟨h1, h2⟩
    | none =>
      obtain ⟨h0, hall⟩ := loadAllLuts_none statics tables emptyRegistry (hreg1 ▸ hcase)
      obtain ⟨h1, h2⟩ := loadAllLuts_none_fixed statics tables reg1 hcase hall
      exact ⟨h1, h2⟩
  calc loadAllLuts statics reg1 tables
      = ⟨(loadAllLuts statics reg1 tables).sharedLut,
         (loadAllLuts statics reg1 tables).sharedLutAccounts,
         (loadAllLuts statics reg1 tables).minerLuts⟩ := rfl
    _ = ⟨reg1.sharedLut, reg1.sharedLutAccounts, reg1.minerLuts⟩ := by
        rw [hshared.1, hshared.2, hminer]
    _ = reg1 := rfl

/-- C9 witness: a concrete scan with one shared table and one per-account
table classifies identically when run twice. -/
theorem C9_discovery_idempotent_witness :
    loadAllLuts [1, 2, 3, 4, 5, 6] (loadAllLuts [1, 2, 3, 4, 5, 6] emptyRegistry
        [⟨100, [1, 2, 3, 4, 5, 6, 7]⟩, ⟨200, [10, 11, 12, 13, 14]⟩])
        [⟨100, [1, 2, 3, 4, 5, 6, 7]⟩, ⟨200, [10, 11, 12, 13, 14]⟩]
      = loadAllLuts [1, 2, 3, 4, 5, 6] emptyRegistry
        [⟨100, [1, 2, 3, 4, 5, 6, 7]⟩, ⟨200, [10, 11, 12, 13, 14]⟩] :=
  C9_discovery_idempotent [1, 2, 3, 4, 5, 6]
    [⟨100, [1, 2, 3, 4, 5, 6, 7]⟩, ⟨200, [10, 11, 12, 13, 14]⟩]
    (by decide) (by decide)

end Evore
